import Mathlib

/-!
Shallow embedding of `emdr-relay-go` (file `emdr-relay-go.go`): a deduplicating
relay between upstream publish/subscribe feeds and one downstream endpoint.
The embedding covers the FNV-1 32-bit fingerprint and its hexadecimal cache
key, the bounded LRU cache, the main relay loop body (dedup, forward,
decode/persist path), the freshness window for persisted rowsets, and the
document-store key construction and upsert semantics.
-/

namespace EmdrRelay

/-- A byte of a raw zeromq message. -/
abbrev Byte := Fin 256

/-- A raw message: its byte sequence, nothing more. -/
abbrev Msg := List Byte

/-! ## Fingerprint: `fnv.New32()` (FNV-1, 32-bit) and `fmt.Sprintf("%x", checksum)` -/

/-- FNV-1 32-bit offset basis, the initial state of `fnv.New32()`. -/
def fnvOffsetBasis : Nat := 2166136261

/-- FNV-1 32-bit prime. -/
def fnvPrime : Nat := 16777619

/-- One step of FNV-1: multiply the state by the prime in 32-bit arithmetic,
then XOR the next byte in (`s *= prime; s ^= uint32(c)` in Go's `hash/fnv`). -/
def fnv32Step (h : Nat) (b : Byte) : Nat :=
  ((h * fnvPrime) % 2 ^ 32) ^^^ b.val

/-- The FNV-1 32-bit digest of a message, as computed by `h.Write([]byte(msg))`
followed by reading the 32-bit sum. -/
def fnv32 (m : Msg) : Nat :=
  m.foldl fnv32Step fnvOffsetBasis

/-- The four bytes `h.Sum([]byte{})` appends: the digest in big-endian order. -/
def digestBytes (d : Nat) : List Nat :=
  [d / 2 ^ 24 % 256, d / 2 ^ 16 % 256, d / 2 ^ 8 % 256, d % 256]

/-- Lowercase hexadecimal digit character for `n < 16`. -/
def hexDigitChar (n : Nat) : Char :=
  if n < 10 then Char.ofNat (48 + n) else Char.ofNat (87 + n)

/-- Two lowercase hex digits for one byte, as `fmt.Sprintf("%x", ...)` renders
each byte of a `[]byte`. -/
def byteHex (b : Nat) : String :=
  String.mk [hexDigitChar (b / 16), hexDigitChar (b % 16)]

/-- Hex rendering of a byte list: concatenation of two digits per byte. -/
def bytesHex : List Nat → String
  | [] => ""
  | b :: bs => byteHex b ++ bytesHex bs

/-- The cache key of a message: `fmt.Sprintf("%x", checksum)` where `checksum`
is the 4-byte FNV-1 digest — eight lowercase hex characters. -/
def cache_key (m : Msg) : String :=
  bytesHex (digestBytes (fnv32 m))

/-! ## Cache value and sizing (lines 19–22, 76–85 of the source) -/

/-- The cached value: presence is all that matters (`type CacheValue struct`). -/
structure CacheValue where
  found : Bool
deriving DecidableEq, Repr

/-- Size in bytes of one `CacheValue`: `unsafe.Sizeof` of a struct holding a
single `bool` is one byte. -/
def cache_value_size : Nat := 1

/-- Max cache size in bytes: `cache_value_size * 1000` (line 80). -/
def cache_size_limit : Nat := cache_value_size * 1000

/-- The `Size()` method of `CacheValue`: every entry reports the constant
per-entry footprint. -/
def CacheValue.size (_ : CacheValue) : Nat := cache_value_size

/-! ## Bounded LRU cache

Modelled from the spec: the LRU cache implementation lives in the repository
package `cache/` (imported as `github.com/gtaylor/emdr-relay-go/cache`), which
is not among the provided source files; its contract is §4.1 of the design:
recency-ordered entries (most-recently-used first), `Get` promotes on hit and
has no effect on miss, `Set` inserts as most-recently-used and evicts
least-recently-used entries until the total byte size is back within the
configured limit. -/
structure LRUCache where
  capacityBytes : Nat
  entries : List (String × CacheValue)
deriving DecidableEq, Repr

/-- Modelled from the spec: `cache.NewLRUCache(limit)` — an empty cache with
the given byte-size limit. -/
def NewLRUCache (limit : Nat) : LRUCache :=
  ⟨limit, []⟩

/-- Modelled from the spec: keep the longest most-recently-used prefix whose
cumulative byte size fits within `limit`; entries beyond it (the
least-recently-used ones) are evicted. -/
def takeWithin (limit : Nat) : List (String × CacheValue) → List (String × CacheValue)
  | [] => []
  | e :: es => if e.2.size ≤ limit then e :: takeWithin (limit - e.2.size) es else []

/-- Modelled from the spec: `Get(key)` returns the stored value and a hit
flag; on a hit the entry is promoted to most-recently-used, on a miss the
cache is unchanged. -/
def LRUCache.get (c : LRUCache) (k : String) : Option CacheValue × LRUCache :=
  match c.entries.find? (fun e => e.1 == k) with
  | some e => (some e.2, ⟨c.capacityBytes, e :: c.entries.eraseP (fun x => x.1 == k)⟩)
  | none => (none, c)

/-- Modelled from the spec: `Set(key, value)` inserts the entry as
most-recently-used (replacing any entry under the same key) and evicts from
the least-recently-used end until the byte size is within the limit. -/
def LRUCache.set (c : LRUCache) (k : String) (v : CacheValue) : LRUCache :=
  ⟨c.capacityBytes, takeWithin c.capacityBytes ((k, v) :: c.entries.eraseP (fun e => e.1 == k))⟩

/-! ## Decoded payload types (`EMDRMsg`, `EMDRDoc`, `Configuration`) -/

/-- One named upload credential (`uploadKeys` array element). -/
structure UploadKey where
  name : String
  key : String
deriving DecidableEq, Repr

/-- One fixed-arity data row (11 positional fields; timestamps as unix
seconds). -/
structure Row where
  num0 : Int
  num1 : Int
  num2 : Int
  num3 : Int
  num4 : Int
  num5 : Int
  num6 : Bool
  num7 : Int
  num8 : Int
  num9 : Int
  num10 : Int
deriving DecidableEq, Repr

/-- One rowset: generation timestamp (unix seconds), region id, type id,
rows. -/
structure Rowset where
  generatedAt : Int
  regionID : Int
  typeID : Int
  rows : List Row
deriving DecidableEq, Repr

/-- The decoded envelope (`EMDRMsg`). -/
structure EMDRMsg where
  resultType : String
  version : String
  uploadKeys : List UploadKey
  generatorName : String
  generatorVersion : String
  currentTime : Int
  columns : List String
  rowsets : List Rowset
deriving DecidableEq, Repr

/-- The configuration file contents (`Configuration`). -/
structure Configuration where
  URI : String
  Cluster : String
  Bucket : String
  RelayList : List String
  CouchbaseCache : Bool
deriving DecidableEq, Repr

/-- The persisted document (`EMDRDoc`): region, type id (as `ItemID`), insert
timestamp, upload credentials, result-type tag. -/
structure EMDRDoc where
  region : Int
  itemID : Int
  insertTime : Int
  uploadKeys : List UploadKey
  resultType : String
deriving DecidableEq, Repr

/-! ## Relay loop body (lines 137–187) -/

/-- Wrap an integer into signed 32-bit range, the semantics of Go's
`int32(x)` conversion. -/
def toInt32 (x : Int) : Int :=
  (x + 2 ^ 31) % 2 ^ 32 - 2 ^ 31

/-- Decimal string of a natural number. -/
def natDecimal (n : Nat) : String :=
  String.mk (Nat.toDigits 10 n)

/-- Decimal string of an integer, as `strconv.Itoa` renders it. -/
def intDecimal (i : Int) : String :=
  if i < 0 then "-" ++ natDecimal i.natAbs else natDecimal i.natAbs

/-- The document-store key built in the loop body (lines 176–183): decimal
region id, hyphen, decimal type id, hyphen, result-type tag. -/
def docKey (regionID typeID : Int) (resultType : String) : String :=
  intDecimal regionID ++ "-" ++ intDecimal typeID ++ "-" ++ resultType

/-- The document value built at line 175. -/
def mkDoc (now : Int) (m : EMDRMsg) (rs : Rowset) : EMDRDoc :=
  { region := rs.regionID
    itemID := rs.typeID
    insertTime := toInt32 now
    uploadKeys := m.uploadKeys
    resultType := m.resultType }

/-- The freshness test at line 174:
`element.GeneratedAt.Unix() >= int32(time.Now().Unix())-3600`, with the
`int32` conversion and 32-bit subtraction made explicit. -/
def persistCond (now : Int) (rs : Rowset) : Bool :=
  decide (toInt32 (toInt32 now - 3600) ≤ rs.generatedAt)

/-- Observable effects of one iteration of the relay loop. -/
inductive Event where
  | recvLog (e : String)
  | cacheSet (k : String)
  | forward (m : Msg)
  | persistDoc (k : String) (d : EMDRDoc)
  | fatalExit (e : String)
deriving DecidableEq, Repr

/-- The document-store writes of the rowset loop (lines 173–186): one upsert
per rowset passing the freshness test, in iteration order. -/
def persistEvents (now : Int) (m : EMDRMsg) : List Event :=
  (m.rowsets.filter (persistCond now)).map fun rs =>
    Event.persistDoc (docKey rs.regionID rs.typeID m.resultType) (mkDoc now m rs)

/-- One receive result: the message bytes and the error value returned by
`receiver.Recv(0)`. -/
structure Inp where
  msg : Msg
  recvErr : Option String
deriving DecidableEq, Repr

/-- Result of one loop iteration: the cache afterwards, the emitted events in
order, and whether the iteration terminated the process (`log.Fatal`). -/
structure StepResult where
  cache : LRUCache
  events : List Event
  terminated : Bool
deriving DecidableEq, Repr

/-- Events produced by the receive step: the error log line when
`receiver.Recv(0)` returned an error, nothing otherwise. -/
def recvEvs : Option String → List Event
  | some e => [Event.recvLog e]
  | none => []

/-- One iteration of the relay loop body (lines 137–187). The zlib codec and
the JSON parser are passed in as functions: `zd` models `ZlibDecode` (an
`error` result models a failed `zlib.NewReader`/read), `p` models
`json.Unmarshal` into `EMDRMsg` (its error is never checked by the loop, so it
is total). `now` is the value of `time.Now().Unix()` during this iteration.
A receive error is logged, and — as in the source, which has no `continue`
after the log — the iteration then processes the message regardless. A cache
hit drops the message. Otherwise the fingerprint is inserted into the cache,
the message is forwarded, and, when `CouchbaseCache` is set, the message is
decoded; a decode failure reaches `log.Fatal` (process termination), and on
success each fresh rowset is upserted into the document store. -/
def relayStep (cfg : Configuration) (zd : Msg → Except String (List Byte))
    (p : List Byte → EMDRMsg) (now : Int) (cache : LRUCache) (inp : Inp) : StepResult :=
  let evs0 := recvEvs inp.recvErr
  let key := cache_key inp.msg
  let g := cache.get key
  if (g.1).isSome then
    { cache := g.2, events := evs0, terminated := false }
  else
    let cache2 := g.2.set key { found := true }
    let evs1 := evs0 ++ [Event.cacheSet key, Event.forward inp.msg]
    if cfg.CouchbaseCache = false then
      { cache := cache2, events := evs1, terminated := false }
    else
      match zd inp.msg with
      | Except.error e =>
          { cache := cache2, events := evs1 ++ [Event.fatalExit e], terminated := true }
      | Except.ok dec =>
          { cache := cache2, events := evs1 ++ persistEvents now (p dec), terminated := false }

/-! ## Document store: key/value upserts (`b.Set`) -/

/-- Upsert into the document store: `b.Set(key, val)` replaces any document
under the same key. -/
def couchbaseSet (store : List (String × EMDRDoc)) (k : String) (d : EMDRDoc) :
    List (String × EMDRDoc) :=
  store.filter (fun e => !(e.1 == k)) ++ [(k, d)]

/-- Apply the document-store writes of an event list, in order. -/
def applyPersists (evs : List Event) (store : List (String × EMDRDoc)) :
    List (String × EMDRDoc) :=
  evs.foldl
    (fun s ev =>
      match ev with
      | Event.persistDoc k d => couchbaseSet s k d
      | _ => s)
    store

/-- The documents an event list writes to a given key, in write order. -/
def persistsTo (evs : List Event) (k : String) : List EMDRDoc :=
  evs.filterMap fun ev =>
    match ev with
    | Event.persistDoc k2 d => if k2 == k then some d else none
    | _ => none

/-- The last document an event list writes to a key, if any. -/
def lastPersist (evs : List Event) (k : String) : Option EMDRDoc :=
  (persistsTo evs k).foldl (fun _ d => some d) none

/-- How many documents the store holds under a key. -/
def countKeys (store : List (String × EMDRDoc)) (k : String) : Nat :=
  (store.filter fun e => e.1 == k).length

/-- The document the store holds under a key, if any. -/
def lookupDoc (store : List (String × EMDRDoc)) (k : String) : Option EMDRDoc :=
  (store.find? fun e => e.1 == k).map fun e => e.2

/-! ## Cache operation sequences (for the capacity invariant) -/

/-- One cache operation, as issued by the relay loop. -/
inductive CacheOp where
  | getOp (k : String)
  | setOp (k : String) (v : CacheValue)
deriving DecidableEq, Repr

/-- Apply one cache operation. -/
def applyOp (c : LRUCache) : CacheOp → LRUCache
  | CacheOp.getOp k => (c.get k).2
  | CacheOp.setOp k v => c.set k v

/-- Run a sequence of cache operations from a starting state. -/
def runOps (c : LRUCache) (ops : List CacheOp) : LRUCache :=
  ops.foldl applyOp c

/-- The messages forwarded to the outbound socket, in order. -/
def forwardsOf (evs : List Event) : List Msg :=
  evs.filterMap fun ev =>
    match ev with
    | Event.forward m => some m
    | _ => none

/-! ## Helper lemmas -/

lemma get_of_not_isSome {c : LRUCache} {k : String}
    (h : ((c.get k).1).isSome = false) : c.get k = (none, c) := by
  unfold LRUCache.get at *
  cases hf : c.entries.find? (fun e => e.1 == k) <;> simp [hf] at h ⊢

lemma get_entries_length (c : LRUCache) (k : String) :
    ((c.get k).2).entries.length = c.entries.length := by
  unfold LRUCache.get
  cases hf : c.entries.find? (fun e => e.1 == k) with
  | none => rfl
  | some e =>
      have hmem : e ∈ c.entries := List.mem_of_find?_eq_some hf
      have hp := List.find?_some hf
      simp only [List.length_cons]
      exact List.length_eraseP_add_one hmem hp

lemma get_capacity (c : LRUCache) (k : String) :
    ((c.get k).2).capacityBytes = c.capacityBytes := by
  unfold LRUCache.get
  cases hf : c.entries.find? (fun e => e.1 == k) <;> rfl

lemma takeWithin_length (limit : Nat) (es : List (String × CacheValue)) :
    (takeWithin limit es).length ≤ limit := by
  induction es generalizing limit with
  | nil => simp [takeWithin]
  | cons e es ih =>
      simp only [takeWithin, CacheValue.size, cache_value_size]
      by_cases h : 1 ≤ limit
      · simp only [if_pos h, List.length_cons]
        have := ih (limit - 1)
        omega
      · simp [if_neg h]

lemma set_capacity (c : LRUCache) (k : String) (v : CacheValue) :
    (c.set k v).capacityBytes = c.capacityBytes := rfl

lemma set_entries_length (c : LRUCache) (k : String) (v : CacheValue) :
    (c.set k v).entries.length ≤ c.capacityBytes :=
  takeWithin_length _ _

lemma runOps_bound (ops : List CacheOp) :
    ∀ c : LRUCache, c.capacityBytes = 1000 → c.entries.length ≤ 1000 →
      (runOps c ops).capacityBytes = 1000 ∧ (runOps c ops).entries.length ≤ 1000 := by
  induction ops with
  | nil => intro c h1 h2; exact ⟨h1, h2⟩
  | cons op ops ih =>
      intro c h1 h2
      have hstep : (applyOp c op).capacityBytes = 1000 ∧ (applyOp c op).entries.length ≤ 1000 := by
        cases op with
        | getOp k =>
            refine ⟨?_, ?_⟩
            · rw [applyOp, get_capacity, h1]
            · rw [applyOp, get_entries_length]; exact h2
        | setOp k v =>
            refine ⟨?_, ?_⟩
            · rw [applyOp, set_capacity, h1]
            · rw [applyOp]
              have hle := set_entries_length c k v
              rw [h1] at hle
              exact hle
      exact ih (applyOp c op) hstep.1 hstep.2

lemma recvEvs_no_forward (e : Option String) (m : Msg) :
    Event.forward m ∉ recvEvs e := by
  cases e <;> simp [recvEvs]

lemma recvEvs_no_persist (e : Option String) (k : String) (d : EMDRDoc) :
    Event.persistDoc k d ∉ recvEvs e := by
  cases e <;> simp [recvEvs]

lemma recvEvs_no_cacheSet (e : Option String) (k : String) :
    Event.cacheSet k ∉ recvEvs e := by
  cases e <;> simp [recvEvs]

lemma persistEvents_no_forward (now : Int) (env : EMDRMsg) (m : Msg) :
    Event.forward m ∉ persistEvents now env := by
  simp [persistEvents]

lemma persistEvents_no_cacheSet (now : Int) (env : EMDRMsg) (k : String) :
    Event.cacheSet k ∉ persistEvents now env := by
  simp [persistEvents]

lemma mem_persistEvents {now : Int} {env : EMDRMsg} {k : String} {d : EMDRDoc}
    (h : Event.persistDoc k d ∈ persistEvents now env) :
    ∃ rs, rs ∈ env.rowsets ∧ persistCond now rs = true ∧
      k = docKey rs.regionID rs.typeID env.resultType ∧ d = mkDoc now env rs := by
  simp only [persistEvents, List.mem_map, List.mem_filter] at h
  obtain ⟨rs, ⟨hmem, hcond⟩, heq⟩ := h
  refine ⟨rs, hmem, hcond, ?_, ?_⟩
  · exact (Event.persistDoc.injEq _ _ _ _).mp heq.symm |>.1
  · exact (Event.persistDoc.injEq _ _ _ _).mp heq.symm |>.2

/-! ## Relay step shape lemmas -/

lemma relayStep_hit {cfg : Configuration} {zd : Msg → Except String (List Byte)}
    {p : List Byte → EMDRMsg} {now : Int} {cache : LRUCache} {inp : Inp}
    (h : ((cache.get (cache_key inp.msg)).1).isSome = true) :
    relayStep cfg zd p now cache inp =
      ⟨(cache.get (cache_key inp.msg)).2, recvEvs inp.recvErr, false⟩ := by
  simp [relayStep, h]

lemma relayStep_miss_off {cfg : Configuration} {zd : Msg → Except String (List Byte)}
    {p : List Byte → EMDRMsg} {now : Int} {cache : LRUCache} {inp : Inp}
    (hm : ((cache.get (cache_key inp.msg)).1).isSome = false)
    (hcfg : cfg.CouchbaseCache = false) :
    relayStep cfg zd p now cache inp =
      ⟨cache.set (cache_key inp.msg) ⟨true⟩,
       recvEvs inp.recvErr ++ [Event.cacheSet (cache_key inp.msg), Event.forward inp.msg],
       false⟩ := by
  simp [relayStep, hm, get_of_not_isSome hm, hcfg]

lemma relayStep_miss_err {cfg : Configuration} {zd : Msg → Except String (List Byte)}
    {p : List Byte → EMDRMsg} {now : Int} {cache : LRUCache} {inp : Inp} {e : String}
    (hm : ((cache.get (cache_key inp.msg)).1).isSome = false)
    (hcfg : cfg.CouchbaseCache = true)
    (hzd : zd inp.msg = Except.error e) :
    relayStep cfg zd p now cache inp =
      ⟨cache.set (cache_key inp.msg) ⟨true⟩,
       recvEvs inp.recvErr ++
         [Event.cacheSet (cache_key inp.msg), Event.forward inp.msg] ++ [Event.fatalExit e],
       true⟩ := by
  simp [relayStep, hm, get_of_not_isSome hm, hcfg, hzd]

lemma relayStep_miss_ok {cfg : Configuration} {zd : Msg → Except String (List Byte)}
    {p : List Byte → EMDRMsg} {now : Int} {cache : LRUCache} {inp : Inp} {dec : List Byte}
    (hm : ((cache.get (cache_key inp.msg)).1).isSome = false)
    (hcfg : cfg.CouchbaseCache = true)
    (hzd : zd inp.msg = Except.ok dec) :
    relayStep cfg zd p now cache inp =
      ⟨cache.set (cache_key inp.msg) ⟨true⟩,
       recvEvs inp.recvErr ++
         [Event.cacheSet (cache_key inp.msg), Event.forward inp.msg] ++
           persistEvents now (p dec),
       false⟩ := by
  simp [relayStep, hm, get_of_not_isSome hm, hcfg, hzd]

/-! ## Arithmetic lemmas: 32-bit wrap and the FNV digest bound -/

lemma toInt32_eq_self {x : Int} (h1 : -(2 ^ 31) ≤ x) (h2 : x < 2 ^ 31) :
    toInt32 x = x := by
  have e31 : (2 : Int) ^ 31 = 2147483648 := by norm_num
  have e32 : (2 : Int) ^ 32 = 4294967296 := by norm_num
  unfold toInt32
  rw [e31, e32] at *
  rw [Int.emod_eq_of_lt (by omega) (by omega)]
  omega

lemma persistCond_iff (now : Int) (rs : Rowset) (h0 : 0 ≤ now) (h1 : now < 2 ^ 31) :
    persistCond now rs = decide (now - 3600 ≤ rs.generatedAt) := by
  have e31 : (2 : Int) ^ 31 = 2147483648 := by norm_num
  have l1 : -((2 : Int) ^ 31) ≤ now := by rw [e31]; omega
  have l2 : -((2 : Int) ^ 31) ≤ now - 3600 := by rw [e31]; omega
  have l3 : now - 3600 < 2 ^ 31 := by rw [e31] at h1 ⊢; omega
  unfold persistCond
  rw [toInt32_eq_self l1 h1, toInt32_eq_self l2 l3]

lemma xor_lt_two_pow_32 {x y : Nat} (hx : x < 2 ^ 32) (hy : y < 2 ^ 32) :
    x ^^^ y < 2 ^ 32 :=
  Nat.bitwise_lt hx hy

lemma fnv32Step_lt (h : Nat) (b : Byte) (_ : h < 2 ^ 32) :
    fnv32Step h b < 2 ^ 32 := by
  unfold fnv32Step
  apply xor_lt_two_pow_32
  · exact Nat.mod_lt _ (by norm_num)
  · exact lt_trans b.isLt (by norm_num)

lemma foldl_fnv32Step_lt (l : Msg) :
    ∀ h : Nat, h < 2 ^ 32 → l.foldl fnv32Step h < 2 ^ 32 := by
  induction l with
  | nil => intro h hh; exact hh
  | cons b bs ih => intro h hh; exact ih _ (fnv32Step_lt h b hh)

lemma fnv32_lt (m : Msg) : fnv32 m < 2 ^ 32 :=
  foldl_fnv32Step_lt m fnvOffsetBasis (by norm_num [fnvOffsetBasis])

lemma byteHex_length (b : Nat) : (byteHex b).length = 2 := rfl

lemma cache_key_length (m : Msg) : (cache_key m).length = 8 := by
  show (bytesHex (digestBytes (fnv32 m))).length = 8
  simp [digestBytes, bytesHex, String.length_append, byteHex_length]

/-! ## Shape of one relay-loop iteration -/

lemma relayStep_shape (cfg : Configuration) (zd : Msg → Except String (List Byte))
    (p : List Byte → EMDRMsg) (now : Int) (c : LRUCache) (inp : Inp) :
    ((relayStep cfg zd p now c inp).events = recvEvs inp.recvErr ∧
      ((c.get (cache_key inp.msg)).1).isSome = true) ∨
    ∃ tail, (∀ x, Event.forward x ∉ tail) ∧ (∀ k, Event.cacheSet k ∉ tail) ∧
      (relayStep cfg zd p now c inp).events =
        recvEvs inp.recvErr ++
          Event.cacheSet (cache_key inp.msg) :: Event.forward inp.msg :: tail := by
  cases hb : ((c.get (cache_key inp.msg)).1).isSome with
  | true =>
      left
      rw [relayStep_hit hb]
      exact ⟨rfl, rfl⟩
  | false =>
      right
      cases hcfg : cfg.CouchbaseCache with
      | false =>
          refine ⟨[], by simp, by simp, ?_⟩
          rw [relayStep_miss_off hb hcfg]
      | true =>
          cases hzd : zd inp.msg with
          | error e =>
              refine ⟨[Event.fatalExit e], by simp, by simp, ?_⟩
              rw [relayStep_miss_err hb hcfg hzd]
              simp
          | ok dec =>
              refine ⟨persistEvents now (p dec),
                fun x => persistEvents_no_forward now (p dec) x,
                fun k => persistEvents_no_cacheSet now (p dec) k, ?_⟩
              rw [relayStep_miss_ok hb hcfg hzd]
              simp

/-! ## Concrete collaborators used by the closed witness statements -/

/-- A zlib codec that fails on every message. -/
def zdErr : Msg → Except String (List Byte) := fun _ => Except.error "invalid zlib stream"

/-- A zlib codec that decodes every message to the empty byte list. -/
def zdOk : Msg → Except String (List Byte) := fun _ => Except.ok []

/-- The empty envelope, the zero value of `EMDRMsg`. -/
def emptyEnv : EMDRMsg := ⟨"", "", [], "", "", 0, [], []⟩

/-- A parser returning the empty envelope for every input. -/
def pEmpty : List Byte → EMDRMsg := fun _ => emptyEnv

/-- A configuration with the persistence path enabled. -/
def cfgOn : Configuration := ⟨"", "", "", [], true⟩

/-- A configuration with the persistence path disabled. -/
def cfgOff : Configuration := ⟨"", "", "", [], false⟩

/-- A rowset generated exactly at the freshness boundary (now − 3600 for
`now = 1000000000`). -/
def rsA : Rowset := ⟨999996400, 1, 2, []⟩

/-- A rowset generated one second before the freshness boundary. -/
def rsB : Rowset := ⟨999996399, 3, 4, []⟩

/-- An envelope holding the two boundary rowsets. -/
def envB : EMDRMsg := ⟨"history", "", [], "", "", 0, [], [rsA, rsB]⟩

/-- A parser returning the boundary envelope for every input. -/
def pEnvB : List Byte → EMDRMsg := fun _ => envB

/-- A fresh rowset for a different key (region 1, type 1). -/
def rs0W : Rowset := ⟨3, 1, 1, []⟩

/-- First of two fresh rowsets sharing region 7, type 9. -/
def rs1W : Rowset := ⟨0, 7, 9, []⟩

/-- A stale rowset (far outside the freshness window) for region 7, type 9. -/
def rs3W : Rowset := ⟨-999999, 7, 9, []⟩

/-- Second of two fresh rowsets sharing region 7, type 9. -/
def rs2W : Rowset := ⟨5, 7, 9, []⟩

/-- A fresh rowset for another key (region 2, type 2). -/
def rs4W : Rowset := ⟨4, 2, 2, []⟩

/-- An envelope holding two fresh rowsets with identical region and type ids
among other rowsets: a fresh different-key one before, a stale same-key one
between them, and a fresh different-key one after. -/
def envW : EMDRMsg := ⟨"orders", "", [], "", "", 0, [], [rs0W, rs1W, rs3W, rs2W, rs4W]⟩

/-- A parser returning that envelope for every input. -/
def pEnvW : List Byte → EMDRMsg := fun _ => envW

/-! ## Claim theorems -/

/-- C1: in any sequence of received messages, a message whose fingerprint is
not in the cache is forwarded to the outbound socket, and every subsequent
message with the same fingerprint, while that fingerprint is present in the
cache, is dropped: it is not forwarded and triggers no persistence. -/
theorem dedup_first_forward_then_drop
    (cfg : Configuration) (zd : Msg → Except String (List Byte))
    (p : List Byte → EMDRMsg) (now : Int) (c : LRUCache) (m1 : Msg)
    (hnovel : ((c.get (cache_key m1)).1).isSome = false) :
    Event.forward m1 ∈ (relayStep cfg zd p now c ⟨m1, none⟩).events ∧
    ∀ (c2 : LRUCache) (m2 : Msg) (e2 : Option String),
      cache_key m2 = cache_key m1 →
      ((c2.get (cache_key m2)).1).isSome = true →
      (∀ x, Event.forward x ∉ (relayStep cfg zd p now c2 ⟨m2, e2⟩).events) ∧
      ∀ k d, Event.persistDoc k d ∉ (relayStep cfg zd p now c2 ⟨m2, e2⟩).events := by
  constructor
  · rcases relayStep_shape cfg zd p now c ⟨m1, none⟩ with ⟨_, hhit⟩ | ⟨tail, _, _, heq⟩
    · rw [hnovel] at hhit; exact absurd hhit (by simp)
    · rw [heq]; simp
  · intro c2 m2 e2 _ hhit
    rw [@relayStep_hit cfg zd p now c2 ⟨m2, e2⟩ hhit]
    exact ⟨fun x => recvEvs_no_forward e2 x, fun k d => recvEvs_no_persist e2 k d⟩

/-- C1 witness: the empty message is novel in the fresh cache and gets
forwarded; with its fingerprint present in a cache, a byte-identical message
is neither forwarded nor persisted. -/
theorem dedup_first_forward_then_drop_witness :
    Event.forward [] ∈
      (relayStep cfgOff zdErr pEmpty 0 (NewLRUCache cache_size_limit) ⟨[], none⟩).events ∧
    (∀ x, Event.forward x ∉
      (relayStep cfgOff zdErr pEmpty 0
        (LRUCache.mk cache_size_limit [(cache_key [], ⟨true⟩)]) ⟨[], none⟩).events) ∧
    ∀ k d, Event.persistDoc k d ∉
      (relayStep cfgOff zdErr pEmpty 0
        (LRUCache.mk cache_size_limit [(cache_key [], ⟨true⟩)]) ⟨[], none⟩).events := by
  have h := dedup_first_forward_then_drop cfgOff zdErr pEmpty 0
    (NewLRUCache cache_size_limit) [] (by decide)
  have h2 := h.2 (LRUCache.mk cache_size_limit [(cache_key [], ⟨true⟩)]) [] none rfl (by decide)
  exact ⟨h.1, h2.1, h2.2⟩

/-- C2: contrary to the claim, a decompression failure on a forwarded novel
message is not merely reported and skipped: the loop body reaches
`log.Fatal(err)` (line 170), which terminates the process. Evaluated here at
a failing input: persistence enabled, a novel message the zlib codec
rejects. -/
theorem decode_failure_terminates_process :
    (relayStep cfgOn zdErr pEmpty 0 (NewLRUCache cache_size_limit) ⟨[], none⟩).terminated
        = true ∧
    Event.fatalExit "invalid zlib stream" ∈
      (relayStep cfgOn zdErr pEmpty 0 (NewLRUCache cache_size_limit) ⟨[], none⟩).events ∧
    Event.forward [] ∈
      (relayStep cfgOn zdErr pEmpty 0 (NewLRUCache cache_size_limit) ⟨[], none⟩).events := by
  decide

/-- C3 counterexample: when the receive returns an error, the loop body has
no `continue` (lines 138–141): the very same iteration still fingerprints the
(empty) message, inserts it into the cache and forwards it — refuting the
claim that no fingerprinting, cache update, or forward happens. -/
theorem recv_error_still_processed_cex :
    Event.recvLog "recv failed" ∈
      (relayStep cfgOff zdErr pEmpty 0 (NewLRUCache cache_size_limit)
        ⟨[], some "recv failed"⟩).events ∧
    Event.cacheSet (cache_key []) ∈
      (relayStep cfgOff zdErr pEmpty 0 (NewLRUCache cache_size_limit)
        ⟨[], some "recv failed"⟩).events ∧
    Event.forward [] ∈
      (relayStep cfgOff zdErr pEmpty 0 (NewLRUCache cache_size_limit)
        ⟨[], some "recv failed"⟩).events := by
  decide

/-- C3 amended: when the inbound receive operation returns an error, the
error is logged, but the iteration still processes the returned message: it
is fingerprinted and looked up; a cache hit is dropped (and the iteration
does not terminate the process), while a novel message is inserted into the
cache and forwarded. -/
theorem recv_error_logged_message_processed
    (cfg : Configuration) (zd : Msg → Except String (List Byte))
    (p : List Byte → EMDRMsg) (now : Int) (c : LRUCache) (m : Msg) (e : String) :
    Event.recvLog e ∈ (relayStep cfg zd p now c ⟨m, some e⟩).events ∧
    (((c.get (cache_key m)).1).isSome = true →
      (relayStep cfg zd p now c ⟨m, some e⟩).events = [Event.recvLog e] ∧
      (relayStep cfg zd p now c ⟨m, some e⟩).terminated = false) ∧
    (((c.get (cache_key m)).1).isSome = false →
      Event.cacheSet (cache_key m) ∈ (relayStep cfg zd p now c ⟨m, some e⟩).events ∧
      Event.forward m ∈ (relayStep cfg zd p now c ⟨m, some e⟩).events) := by
  refine ⟨?_, ?_, ?_⟩
  · rcases relayStep_shape cfg zd p now c ⟨m, some e⟩ with ⟨heq, _⟩ | ⟨tail, _, _, heq⟩ <;>
      rw [heq] <;> simp [recvEvs]
  · intro hhit
    rw [@relayStep_hit cfg zd p now c ⟨m, some e⟩ hhit]
    exact ⟨rfl, rfl⟩
  · intro hmiss
    rcases relayStep_shape cfg zd p now c ⟨m, some e⟩ with ⟨_, hhit⟩ | ⟨tail, _, _, heq⟩
    · rw [hmiss] at hhit; exact absurd hhit (by simp)
    · rw [heq]; simp

/-- C3 amended witness: with an errored receive of the empty message on a
fresh cache, the error is logged and the message is still cached and
forwarded. -/
theorem recv_error_logged_message_processed_witness :
    Event.recvLog "e" ∈
      (relayStep cfgOff zdErr pEmpty 0 (NewLRUCache cache_size_limit)
        ⟨[], some "e"⟩).events ∧
    Event.cacheSet (cache_key []) ∈
      (relayStep cfgOff zdErr pEmpty 0 (NewLRUCache cache_size_limit)
        ⟨[], some "e"⟩).events ∧
    Event.forward [] ∈
      (relayStep cfgOff zdErr pEmpty 0 (NewLRUCache cache_size_limit)
        ⟨[], some "e"⟩).events := by
  have h := recv_error_logged_message_processed cfgOff zdErr pEmpty 0
    (NewLRUCache cache_size_limit) [] "e"
  have h3 := h.2.2 (by decide)
  exact ⟨h.1, h3.1, h3.2⟩

/-- C4: whenever an iteration forwards a message, its event sequence inserts
that message's fingerprint into the cache (`Cache.Set`) strictly before the
forward to the outbound socket. -/
theorem cacheSet_precedes_forward
    (cfg : Configuration) (zd : Msg → Except String (List Byte))
    (p : List Byte → EMDRMsg) (now : Int) (c : LRUCache) (inp : Inp) (m : Msg)
    (h : Event.forward m ∈ (relayStep cfg zd p now c inp).events) :
    ∃ l1 l2, (relayStep cfg zd p now c inp).events =
      l1 ++ Event.cacheSet (cache_key m) :: Event.forward m :: l2 := by
  rcases relayStep_shape cfg zd p now c inp with ⟨heq, _⟩ | ⟨tail, htail, _, heq⟩
  · rw [heq] at h
    exact absurd h (recvEvs_no_forward _ _)
  · rw [heq] at h
    have hm : m = inp.msg := by
      rcases List.mem_append.mp h with h1 | h1
      · exact absurd h1 (recvEvs_no_forward _ _)
      · rcases List.mem_cons.mp h1 with h2 | h1b
        · simp at h2
        · rcases List.mem_cons.mp h1b with h2 | h2
          · simpa using h2
          · exact absurd h2 (htail m)
    subst hm
    exact ⟨recvEvs inp.recvErr, tail, heq⟩

/-- C4 witness: forwarding the novel empty message on a fresh cache is
preceded by the insertion of its fingerprint. -/
theorem cacheSet_precedes_forward_witness :
    ∃ l1 l2, (relayStep cfgOff zdErr pEmpty 0 (NewLRUCache cache_size_limit)
        ⟨[], none⟩).events =
      l1 ++ Event.cacheSet (cache_key []) :: Event.forward [] :: l2 :=
  cacheSet_precedes_forward cfgOff zdErr pEmpty 0 (NewLRUCache cache_size_limit)
    ⟨[], none⟩ [] (by decide)

/-- C5: the byte limit handed to the cache constructor is 1000 times the
per-entry footprint, every entry reports exactly that footprint, the derived
entry-count capacity is exactly 1000, and along every sequence of cache
operations from startup the cache never holds more than 1000 entries. -/
theorem cache_entry_capacity_1000 :
    cache_size_limit = cache_value_size * 1000 ∧
    (∀ v : CacheValue, v.size = cache_value_size) ∧
    cache_size_limit / cache_value_size = 1000 ∧
    ∀ ops : List CacheOp,
      (runOps (NewLRUCache cache_size_limit) ops).entries.length ≤ 1000 := by
  refine ⟨rfl, fun v => rfl, rfl, fun ops => ?_⟩
  exact (runOps_bound ops (NewLRUCache cache_size_limit) rfl (by simp [NewLRUCache])).2

/-- C5 witness: the capacity bound evaluated on a concrete operation
sequence. -/
theorem cache_entry_capacity_1000_witness :
    (runOps (NewLRUCache cache_size_limit)
      [CacheOp.setOp "a" ⟨true⟩, CacheOp.getOp "a"]).entries.length ≤ 1000 :=
  cache_entry_capacity_1000.2.2.2 [CacheOp.setOp "a" ⟨true⟩, CacheOp.getOp "a"]

/-- C6: for a novel message that decodes to an envelope, the persisted
rowsets are exactly those whose generation timestamp is at or after
(now − 3600 s) — the `int32` cast in the source is the identity for any
real clock value below 2³¹ — and rowsets outside the window produce no
document-store write. -/
theorem rowset_freshness_window
    (cfg : Configuration) (zd : Msg → Except String (List Byte))
    (p : List Byte → EMDRMsg) (now : Int) (c : LRUCache) (m : Msg)
    (env : EMDRMsg) (dec : List Byte)
    (hcfg : cfg.CouchbaseCache = true)
    (hzd : zd m = Except.ok dec)
    (hp : p dec = env)
    (hmiss : ((c.get (cache_key m)).1).isSome = false)
    (h0 : 0 ≤ now) (h1 : now < 2 ^ 31) :
    (relayStep cfg zd p now c ⟨m, none⟩).events =
      Event.cacheSet (cache_key m) :: Event.forward m ::
        (env.rowsets.filter fun rs => decide (now - 3600 ≤ rs.generatedAt)).map
          (fun rs => Event.persistDoc (docKey rs.regionID rs.typeID env.resultType)
            (mkDoc now env rs)) := by
  rw [@relayStep_miss_ok cfg zd p now c ⟨m, none⟩ dec hmiss hcfg hzd, hp]
  have hfil : env.rowsets.filter (persistCond now) =
      env.rowsets.filter (fun rs => decide (now - 3600 ≤ rs.generatedAt)) :=
    List.filter_congr (fun rs _ => persistCond_iff now rs h0 h1)
  simp [recvEvs, persistEvents, hfil]

/-- C6 witness: at `now = 1000000000`, a rowset generated exactly at
(now − 3600) is persisted and one generated at (now − 3601) is silently
skipped. -/
theorem rowset_freshness_window_witness :
    (relayStep cfgOn zdOk pEnvB 1000000000 (NewLRUCache cache_size_limit)
        ⟨[], none⟩).events =
      [Event.cacheSet (cache_key []), Event.forward [],
       Event.persistDoc (docKey 1 2 "history") (mkDoc 1000000000 envB rsA)] := by
  have h := rowset_freshness_window cfgOn zdOk pEnvB 1000000000
    (NewLRUCache cache_size_limit) [] envB [] rfl rfl rfl (by decide) (by decide) (by decide)
  rw [h]
  decide

/-- C7: every document-store write of an iteration uses the key assembled as
decimal region id, hyphen, decimal type id, hyphen, result-type tag, for the
rowset it persists; in particular region 10000210, type 34, result type
"history" yields the key "10000210-34-history". -/
theorem document_key_format
    (cfg : Configuration) (zd : Msg → Except String (List Byte))
    (p : List Byte → EMDRMsg) (now : Int) (c : LRUCache) (inp : Inp)
    (env : EMDRMsg) (dec : List Byte)
    (hcfg : cfg.CouchbaseCache = true)
    (hzd : zd inp.msg = Except.ok dec)
    (hp : p dec = env) :
    (∀ k d, Event.persistDoc k d ∈ (relayStep cfg zd p now c inp).events →
      ∃ rs, rs ∈ env.rowsets ∧ k = docKey rs.regionID rs.typeID env.resultType ∧
        d = mkDoc now env rs) ∧
    docKey 10000210 34 "history" = "10000210-34-history" := by
  constructor
  · intro k d hmem
    cases hb : ((c.get (cache_key inp.msg)).1).isSome with
    | true =>
        rw [relayStep_hit hb] at hmem
        exact absurd hmem (recvEvs_no_persist _ _ _)
    | false =>
        rw [relayStep_miss_ok hb hcfg hzd, hp] at hmem
        rcases List.mem_append.mp hmem with h1 | h1
        · rcases List.mem_append.mp h1 with h2 | h2
          · exact absurd h2 (recvEvs_no_persist _ _ _)
          · simp at h2
        · obtain ⟨rs, hrs, _, hk, hd⟩ := mem_persistEvents h1
          exact ⟨rs, hrs, hk, hd⟩
  · decide

/-- C7 witness: the concrete document key of the claim's scenario. -/
theorem document_key_format_witness :
    docKey 10000210 34 "history" = "10000210-34-history" :=
  (document_key_format cfgOn zdOk pEmpty 0 (NewLRUCache cache_size_limit) ⟨[], none⟩
    emptyEnv [] rfl rfl rfl).2

lemma no_persist_in_core (e : Option String) (key : String) (m : Msg)
    (k : String) (d : EMDRDoc) :
    Event.persistDoc k d ∉ recvEvs e ++ [Event.cacheSet key, Event.forward m] := by
  intro h
  rcases List.mem_append.mp h with h1 | h1
  · exact recvEvs_no_persist e k d h1
  · simp at h1

lemma forwardsOf_append (a b : List Event) :
    forwardsOf (a ++ b) = forwardsOf a ++ forwardsOf b := by
  simp [forwardsOf]

lemma forwardsOf_persistEvents (now : Int) (env : EMDRMsg) :
    forwardsOf (persistEvents now env) = [] := by
  unfold forwardsOf persistEvents
  generalize env.rowsets.filter (persistCond now) = l
  induction l with
  | nil => rfl
  | cons rs l ih => simp [ih]

/-- C8: with the persistence flag off, an iteration performs no
document-store write and never reaches the fatal decode path, and its
forwarded messages and resulting cache are identical to those of the same
iteration under any other configuration and decode/parse collaborators. -/
theorem persistence_disabled_no_writes
    (cfg cfg2 : Configuration) (zd zd2 : Msg → Except String (List Byte))
    (p p2 : List Byte → EMDRMsg) (now : Int) (c : LRUCache) (inp : Inp)
    (h : cfg.CouchbaseCache = false) :
    (∀ k d, Event.persistDoc k d ∉ (relayStep cfg zd p now c inp).events) ∧
    (relayStep cfg zd p now c inp).terminated = false ∧
    forwardsOf (relayStep cfg zd p now c inp).events =
      forwardsOf (relayStep cfg2 zd2 p2 now c inp).events ∧
    (relayStep cfg zd p now c inp).cache = (relayStep cfg2 zd2 p2 now c inp).cache := by
  cases hb : ((c.get (cache_key inp.msg)).1).isSome with
  | true =>
      rw [relayStep_hit hb, relayStep_hit hb]
      exact ⟨fun k d => recvEvs_no_persist _ k d, rfl, rfl, rfl⟩
  | false =>
      rw [relayStep_miss_off hb h]
      cases hcfg2 : cfg2.CouchbaseCache with
      | false =>
          rw [relayStep_miss_off hb hcfg2]
          exact ⟨fun k d => no_persist_in_core _ _ _ k d, rfl, rfl, rfl⟩
      | true =>
          cases hzd2 : zd2 inp.msg with
          | error e =>
              rw [relayStep_miss_err hb hcfg2 hzd2]
              refine ⟨fun k d => no_persist_in_core _ _ _ k d, rfl, ?_, rfl⟩
              simp [forwardsOf_append, forwardsOf]
          | ok dec =>
              rw [relayStep_miss_ok hb hcfg2 hzd2]
              refine ⟨fun k d => no_persist_in_core _ _ _ k d, rfl, ?_, rfl⟩
              rw [forwardsOf_append (recvEvs inp.recvErr ++
                    [Event.cacheSet (cache_key inp.msg), Event.forward inp.msg])
                  (persistEvents now (p2 dec)),
                forwardsOf_persistEvents, List.append_nil]

/-- C8 witness: with persistence off, the step on the empty message writes
nothing, does not terminate, and forwards and caches exactly as the same
step under an enabled configuration whose codec would fail fatally. -/
theorem persistence_disabled_no_writes_witness :
    (∀ k d, Event.persistDoc k d ∉
      (relayStep cfgOff zdOk pEmpty 0 (NewLRUCache cache_size_limit) ⟨[], none⟩).events) ∧
    (relayStep cfgOff zdOk pEmpty 0 (NewLRUCache cache_size_limit)
        ⟨[], none⟩).terminated = false ∧
    forwardsOf (relayStep cfgOff zdOk pEmpty 0 (NewLRUCache cache_size_limit)
        ⟨[], none⟩).events =
      forwardsOf (relayStep cfgOn zdErr pEmpty 0 (NewLRUCache cache_size_limit)
        ⟨[], none⟩).events ∧
    (relayStep cfgOff zdOk pEmpty 0 (NewLRUCache cache_size_limit) ⟨[], none⟩).cache =
      (relayStep cfgOn zdErr pEmpty 0 (NewLRUCache cache_size_limit) ⟨[], none⟩).cache :=
  persistence_disabled_no_writes cfgOff cfgOn zdOk zdErr pEmpty pEmpty 0
    (NewLRUCache cache_size_limit) ⟨[], none⟩ rfl

/-- C9: the fingerprint is a pure function of the raw message bytes: the
digest always fits in 32 bits, the cache key is its fixed-length (eight
lowercase hex characters) rendering, and the key every iteration inserts
into the cache is exactly the fingerprint of the received bytes, whatever
the configuration, collaborators, clock or cache state. -/
theorem fingerprint_deterministic_hex :
    (∀ m : Msg, fnv32 m < 2 ^ 32) ∧
    (∀ m : Msg, (cache_key m).length = 8) ∧
    (∀ m : Msg, cache_key m = bytesHex (digestBytes (fnv32 m))) ∧
    ∀ (cfg : Configuration) (zd : Msg → Except String (List Byte))
      (p : List Byte → EMDRMsg) (now : Int) (c : LRUCache) (inp : Inp) (k : String),
      Event.cacheSet k ∈ (relayStep cfg zd p now c inp).events → k = cache_key inp.msg := by
  refine ⟨fnv32_lt, cache_key_length, fun m => rfl, ?_⟩
  intro cfg zd p now c inp k hmem
  rcases relayStep_shape cfg zd p now c inp with ⟨heq, _⟩ | ⟨tail, _, htail, heq⟩
  · rw [heq] at hmem
    exact absurd hmem (recvEvs_no_cacheSet _ _)
  · rw [heq] at hmem
    rcases List.mem_append.mp hmem with h1 | h1
    · exact absurd h1 (recvEvs_no_cacheSet _ _)
    · rcases List.mem_cons.mp h1 with h2 | h1b
      · simpa using h2
      · rcases List.mem_cons.mp h1b with h2 | h2
        · simp at h2
        · exact absurd h2 (htail k)

/-- C9 witness: the fingerprint properties evaluated on the empty message,
and the inserted key of a concrete iteration equals its fingerprint. -/
theorem fingerprint_deterministic_hex_witness :
    (cache_key []).length = 8 ∧ cache_key [] = cache_key [] :=
  ⟨fingerprint_deterministic_hex.2.1 [],
   fingerprint_deterministic_hex.2.2.2 cfgOff zdErr pEmpty 0
     (NewLRUCache cache_size_limit) ⟨[], none⟩ (cache_key []) (by decide)⟩

lemma find?_filter_of_imp {α : Type} (p q : α → Bool) (l : List α)
    (h : ∀ e, p e = true → q e = true) :
    (l.filter q).find? p = l.find? p := by
  induction l with
  | nil => rfl
  | cons e l ih =>
      by_cases hp : p e = true
      · rw [List.filter_cons_of_pos (h e hp), List.find?_cons_of_pos _ hp,
          List.find?_cons_of_pos _ hp]
      · by_cases hq : q e = true
        · rw [List.filter_cons_of_pos hq, List.find?_cons_of_neg _ hp,
            List.find?_cons_of_neg _ hp, ih]
        · rw [List.filter_cons_of_neg hq, List.find?_cons_of_neg _ hp, ih]

lemma filter_filter_of_imp {α : Type} (p q : α → Bool) (l : List α)
    (h : ∀ e, p e = true → q e = true) :
    (l.filter q).filter p = l.filter p := by
  rw [List.filter_filter]
  apply List.filter_congr
  intro a _
  cases hp : p a with
  | false => simp
  | true => simp [h a hp]

lemma filter_filter_not_self {α : Type} (p : α → Bool) (l : List α) :
    (l.filter fun e => !(p e)).filter p = [] := by
  rw [List.filter_filter]
  simp

lemma lookupDoc_couchbaseSet_self (store : List (String × EMDRDoc)) (k : String)
    (d : EMDRDoc) : lookupDoc (couchbaseSet store k d) k = some d := by
  unfold lookupDoc couchbaseSet
  rw [List.find?_append]
  have h1 : (store.filter fun e => !(e.1 == k)).find? (fun e => e.1 == k) = none := by
    rw [List.find?_eq_none]
    intro x hx
    have hk := (List.mem_filter.mp hx).2
    simp at hk ⊢
    exact hk
  rw [h1]
  simp

lemma lookupDoc_couchbaseSet_other (store : List (String × EMDRDoc)) (k2 k : String)
    (d : EMDRDoc) (h : (k2 == k) = false) :
    lookupDoc (couchbaseSet store k2 d) k = lookupDoc store k := by
  have hne : k2 ≠ k := by
    intro hkk
    rw [hkk] at h
    simp at h
  unfold lookupDoc couchbaseSet
  rw [List.find?_append]
  have h1 : (store.filter fun e => !(e.1 == k2)).find? (fun e => e.1 == k) =
      store.find? (fun e => e.1 == k) := by
    apply find?_filter_of_imp
    intro e he
    have hek : e.1 = k := eq_of_beq he
    rw [hek]
    cases hkb : (k == k2) with
    | true => exact absurd (eq_of_beq hkb).symm hne
    | false => rfl
  have h2 : List.find? (fun e => e.1 == k) [(k2, d)] = none := by
    rw [List.find?_cons_of_neg _ (by simp [h])]
    rfl
  rw [h1, h2]
  cases store.find? (fun e => e.1 == k) <;> rfl

lemma countKeys_couchbaseSet_self (store : List (String × EMDRDoc)) (k : String)
    (d : EMDRDoc) : countKeys (couchbaseSet store k d) k = 1 := by
  unfold countKeys couchbaseSet
  rw [List.filter_append, filter_filter_not_self]
  simp

lemma countKeys_couchbaseSet_other (store : List (String × EMDRDoc)) (k2 k : String)
    (d : EMDRDoc) (h : (k2 == k) = false) :
    countKeys (couchbaseSet store k2 d) k = countKeys store k := by
  have hne : k2 ≠ k := by
    intro hkk
    rw [hkk] at h
    simp at h
  unfold countKeys couchbaseSet
  rw [List.filter_append]
  have h1 : (store.filter fun e => !(e.1 == k2)).filter (fun e => e.1 == k) =
      store.filter (fun e => e.1 == k) := by
    apply filter_filter_of_imp
    intro e he
    have hek : e.1 = k := eq_of_beq he
    rw [hek]
    cases hkb : (k == k2) with
    | true => exact absurd (eq_of_beq hkb).symm hne
    | false => rfl
  rw [h1]
  simp [h]

lemma applyPersists_count_le (evs : List Event) :
    ∀ store, (∀ k, countKeys store k ≤ 1) →
      ∀ k, countKeys (applyPersists evs store) k ≤ 1 := by
  induction evs with
  | nil => intro store h k; exact h k
  | cons ev evs ih =>
      intro store h k
      cases ev with
      | persistDoc k2 d =>
          refine ih (couchbaseSet store k2 d) ?_ k
          intro k3
          cases hkb : (k2 == k3) with
          | true =>
              have hk : k2 = k3 := eq_of_beq hkb
              subst hk
              simp [countKeys_couchbaseSet_self]
          | false =>
              rw [countKeys_couchbaseSet_other store k2 k3 d hkb]
              exact h k3
      | recvLog e => exact ih store h k
      | cacheSet k2 => exact ih store h k
      | forward m2 => exact ih store h k
      | fatalExit e => exact ih store h k

lemma applyPersists_lookup (evs : List Event) :
    ∀ (store : List (String × EMDRDoc)) (k : String),
      lookupDoc (applyPersists evs store) k =
        (persistsTo evs k).foldl (fun _ d => some d) (lookupDoc store k) := by
  induction evs with
  | nil => intro store k; rfl
  | cons ev evs ih =>
      intro store k
      cases ev with
      | persistDoc k2 d =>
          cases hkb : (k2 == k) with
          | true =>
              have hk : k2 = k := eq_of_beq hkb
              subst hk
              have h1 : persistsTo (Event.persistDoc k2 d :: evs) k2 =
                  d :: persistsTo evs k2 := by
                simp [persistsTo, List.filterMap_cons]
              calc lookupDoc (applyPersists (Event.persistDoc k2 d :: evs) store) k2
                  = lookupDoc (applyPersists evs (couchbaseSet store k2 d)) k2 := rfl
                _ = (persistsTo evs k2).foldl (fun _ d2 => some d2)
                      (lookupDoc (couchbaseSet store k2 d) k2) := ih _ _
                _ = (persistsTo evs k2).foldl (fun _ d2 => some d2) (some d) := by
                      rw [lookupDoc_couchbaseSet_self]
                _ = (persistsTo (Event.persistDoc k2 d :: evs) k2).foldl
                      (fun _ d2 => some d2) (lookupDoc store k2) := by
                      rw [h1, List.foldl_cons]
          | false =>
              have hne : ¬(k2 = k) := by
                intro hh
                rw [hh] at hkb
                simp at hkb
              have h1 : persistsTo (Event.persistDoc k2 d :: evs) k =
                  persistsTo evs k := by
                simp [persistsTo, List.filterMap_cons, hne]
              calc lookupDoc (applyPersists (Event.persistDoc k2 d :: evs) store) k
                  = lookupDoc (applyPersists evs (couchbaseSet store k2 d)) k := rfl
                _ = (persistsTo evs k).foldl (fun _ d2 => some d2)
                      (lookupDoc (couchbaseSet store k2 d) k) := ih _ _
                _ = (persistsTo evs k).foldl (fun _ d2 => some d2)
                      (lookupDoc store k) := by
                      rw [lookupDoc_couchbaseSet_other store k2 k d hkb]
                _ = (persistsTo (Event.persistDoc k2 d :: evs) k).foldl
                      (fun _ d2 => some d2) (lookupDoc store k) := by rw [h1]
      | recvLog e =>
          exact (ih store k).trans (by simp [persistsTo, List.filterMap_cons])
      | cacheSet k2 =>
          exact (ih store k).trans (by simp [persistsTo, List.filterMap_cons])
      | forward m2 =>
          exact (ih store k).trans (by simp [persistsTo, List.filterMap_cons])
      | fatalExit e =>
          exact (ih store k).trans (by simp [persistsTo, List.filterMap_cons])

/-- C10: when one envelope holds two rowsets with the same region and type
ids, both inside the freshness window — in any positions, possibly among
other rowsets — they are upserted under the same document key in iteration
order; and after the iteration the store holds at most one document under
every key, the survivor under each key being the last document written to
it (each upsert overwrites its predecessor). -/
theorem duplicate_key_upsert_overwrites
    (cfg : Configuration) (zd : Msg → Except String (List Byte))
    (p : List Byte → EMDRMsg) (now : Int) (c : LRUCache) (m : Msg)
    (env : EMDRMsg) (dec : List Byte) (l1 l2 l3 : List Rowset) (rs1 rs2 : Rowset)
    (hcfg : cfg.CouchbaseCache = true)
    (hzd : zd m = Except.ok dec)
    (hp : p dec = env)
    (hmiss : ((c.get (cache_key m)).1).isSome = false)
    (hrow : env.rowsets = l1 ++ rs1 :: l2 ++ rs2 :: l3)
    (hr : rs1.regionID = rs2.regionID) (ht : rs1.typeID = rs2.typeID)
    (h1 : persistCond now rs1 = true) (h2 : persistCond now rs2 = true) :
    (∃ A B C, (relayStep cfg zd p now c ⟨m, none⟩).events =
      A ++ Event.persistDoc (docKey rs2.regionID rs2.typeID env.resultType)
          (mkDoc now env rs1) ::
        B ++ Event.persistDoc (docKey rs2.regionID rs2.typeID env.resultType)
          (mkDoc now env rs2) :: C) ∧
    (∀ k, countKeys
      (applyPersists (relayStep cfg zd p now c ⟨m, none⟩).events []) k ≤ 1) ∧
    (∀ k, lookupDoc (applyPersists (relayStep cfg zd p now c ⟨m, none⟩).events []) k =
      lastPersist (relayStep cfg zd p now c ⟨m, none⟩).events k) := by
  refine ⟨?_, ?_, ?_⟩
  · refine ⟨Event.cacheSet (cache_key m) :: Event.forward m ::
      (l1.filter (persistCond now)).map (fun rs => Event.persistDoc
        (docKey rs.regionID rs.typeID env.resultType) (mkDoc now env rs)),
      (l2.filter (persistCond now)).map (fun rs => Event.persistDoc
        (docKey rs.regionID rs.typeID env.resultType) (mkDoc now env rs)),
      (l3.filter (persistCond now)).map (fun rs => Event.persistDoc
        (docKey rs.regionID rs.typeID env.resultType) (mkDoc now env rs)), ?_⟩
    rw [@relayStep_miss_ok cfg zd p now c ⟨m, none⟩ dec hmiss hcfg hzd, hp]
    simp [recvEvs, persistEvents, hrow, List.filter_append, List.filter_cons,
      h1, h2, hr, ht]
  · exact applyPersists_count_le _ [] (fun k => by simp [countKeys])
  · intro k
    rw [applyPersists_lookup]
    rfl

/-- C10 witness: an envelope with two fresh rowsets for region 7, type 9 —
surrounded by a fresh different-key rowset, a stale same-key rowset between
them, and another fresh different-key rowset after — yields two in-order
upserts under the key of region 7, type 9, at most one surviving document
under that key, and the survivor is the last write to it. -/
theorem duplicate_key_upsert_overwrites_witness :
    (∃ A B C, (relayStep cfgOn zdOk pEnvW 0 (NewLRUCache cache_size_limit)
        ⟨[], none⟩).events =
      A ++ Event.persistDoc (docKey rs2W.regionID rs2W.typeID envW.resultType)
          (mkDoc 0 envW rs1W) ::
        B ++ Event.persistDoc (docKey rs2W.regionID rs2W.typeID envW.resultType)
          (mkDoc 0 envW rs2W) :: C) ∧
    countKeys
      (applyPersists (relayStep cfgOn zdOk pEnvW 0 (NewLRUCache cache_size_limit)
        ⟨[], none⟩).events [])
      (docKey rs2W.regionID rs2W.typeID envW.resultType) ≤ 1 ∧
    lookupDoc
      (applyPersists (relayStep cfgOn zdOk pEnvW 0 (NewLRUCache cache_size_limit)
        ⟨[], none⟩).events [])
      (docKey rs2W.regionID rs2W.typeID envW.resultType) =
    lastPersist (relayStep cfgOn zdOk pEnvW 0 (NewLRUCache cache_size_limit)
        ⟨[], none⟩).events
      (docKey rs2W.regionID rs2W.typeID envW.resultType) := by
  have h := duplicate_key_upsert_overwrites cfgOn zdOk pEnvW 0
    (NewLRUCache cache_size_limit) [] envW [] [rs0W] [rs3W] [rs4W] rs1W rs2W
    rfl rfl rfl (by decide) rfl rfl rfl (by decide) (by decide)
  exact ⟨h.1, h.2.1 _, h.2.2 _⟩

end EmdrRelay
